import Mathlib

/-!
Shallow embedding of `src/vobsub2srt.c++` (VobSub2SRT): the OCR worker-pool
main loop, the result aggregation, the sort / end-timestamp repair pass and
the SRT timestamp formatting, together with theorems checking the
natural-language specification against this embedding.

Machine integers of the source (`unsigned`, `int`) are modelled as `Nat`
resp. `Int`; the only place where the word size matters is the sentinel
`UINT_MAX` and the range hypothesis `pts < 2 ^ 32` on timestamps, made
explicit below.
-/

/-! ### Decimal rendering (printf "%02d" / "%03d" semantics)

`snprintf(buf, len, "%02d:%02d:%02d,%03d", h, m, s, ms)` renders each field
in decimal with zero padding to a minimum width, growing beyond that width
when the value needs more digits.  `decDigitsGo` mirrors the structure of a
digit-extraction loop with explicit fuel (fuel `n+1` always suffices for
`n`). -/

def decDigitsGo : Nat → Nat → List Nat → List Nat
  | 0, _, acc => acc
  | fuel + 1, n, acc =>
    if n < 10 then n :: acc else decDigitsGo fuel (n / 10) (n % 10 :: acc)

/-- Decimal digits of `n`, most significant first. -/
def decDigits (n : Nat) : List Nat := decDigitsGo (n + 1) n []

/-- Decimal string of `n` (the `%d` rendering of a non-negative value). -/
def decString (n : Nat) : String :=
  String.mk ((decDigits n).map fun d => Char.ofNat (48 + d))

/-- Zero padding to minimum width `w` (the `%0wd` rendering). -/
def zeroPad (w : Nat) (s : String) : String :=
  if s.length < w then String.mk (List.replicate (w - s.length) '0') ++ s else s

/-! ### pts2srt (src/vobsub2srt.c++ lines 76-89)

The source computes, by successive division and subtraction on `unsigned`:
`ms = pts / 90; h = ms / 3600000; ms -= h * 3600000; m = ms / 60000;
ms -= m * 60000; s = ms / 1000; ms %= 1000;` and renders
`"%02d:%02d:%02d,%03d"`.  Each intermediate value is given its own
definition mirroring one line of that computation. -/

def srtH (pts : Nat) : Nat := (pts / 90) / (3600 * 1000)

def srtMsAfterH (pts : Nat) : Nat := pts / 90 - srtH pts * (3600 * 1000)

def srtM (pts : Nat) : Nat := srtMsAfterH pts / (60 * 1000)

def srtMsAfterM (pts : Nat) : Nat := srtMsAfterH pts - srtM pts * (60 * 1000)

def srtS (pts : Nat) : Nat := srtMsAfterM pts / 1000

def srtMs (pts : Nat) : Nat := srtMsAfterM pts % 1000

def pts2srt (pts : Nat) : String :=
  zeroPad 2 (decString (srtH pts)) ++ ":" ++ zeroPad 2 (decString (srtM pts))
    ++ ":" ++ zeroPad 2 (decString (srtS pts)) ++ ","
    ++ zeroPad 3 (decString (srtMs pts))

/-! ### Basic lemmas about the decimal rendering -/

theorem decDigitsGo_of_lt (fuel n : Nat) (acc : List Nat) (h : n < 10) :
    decDigitsGo (fuel + 1) n acc = n :: acc := by
  simp [decDigitsGo, h]

theorem decDigits_of_lt {n : Nat} (h : n < 10) : decDigits n = [n] :=
  decDigitsGo_of_lt n n [] h

theorem decDigits_of_lt_100 {n : Nat} (h1 : 10 ≤ n) (h2 : n < 100) :
    decDigits n = [n / 10, n % 10] := by
  obtain ⟨k, rfl⟩ : ∃ k, n = k + 10 := ⟨n - 10, by omega⟩
  show decDigitsGo (k + 10 + 1) (k + 10) [] = _
  rw [show k + 10 + 1 = (k + 10) + 1 from rfl, decDigitsGo]
  have hnot : ¬ k + 10 < 10 := by omega
  simp only [hnot, if_false]
  obtain ⟨j, hj⟩ : ∃ j, k + 10 = j + 1 := ⟨k + 9, by omega⟩
  rw [hj, decDigitsGo_of_lt _ _ _ (by omega)]

theorem decDigits_of_lt_1000 {n : Nat} (h1 : 100 ≤ n) (h2 : n < 1000) :
    decDigits n = [n / 100, n / 10 % 10, n % 10] := by
  obtain ⟨k, rfl⟩ : ∃ k, n = k + 100 := ⟨n - 100, by omega⟩
  show decDigitsGo (k + 100 + 1) (k + 100) [] = _
  rw [show k + 100 + 1 = (k + 100) + 1 from rfl, decDigitsGo]
  have hnot : ¬ k + 100 < 10 := by omega
  simp only [hnot, if_false]
  obtain ⟨j, hj⟩ : ∃ j, k + 100 = j + 2 := ⟨k + 98, by omega⟩
  rw [hj, show j + 2 = (j + 1) + 1 from rfl, decDigitsGo]
  have hnot2 : ¬ (k + 100) / 10 < 10 := by omega
  rw [hj] at hnot2
  simp only [hnot2, if_false]
  rw [decDigitsGo_of_lt _ _ _ (by omega)]
  have e1 : (j + 2) / 10 / 10 = (j + 2) / 100 := by omega
  rw [e1]

theorem decDigits_length_le_two {n : Nat} (h : n < 100) :
    (decDigits n).length ≤ 2 := by
  by_cases h10 : n < 10
  · rw [decDigits_of_lt h10]; simp
  · rw [decDigits_of_lt_100 (by omega) h]; simp

theorem decDigits_length_le_three {n : Nat} (h : n < 1000) :
    (decDigits n).length ≤ 3 := by
  by_cases h100 : n < 100
  · exact le_trans (decDigits_length_le_two h100) (by omega)
  · rw [decDigits_of_lt_1000 (by omega) h]; simp

theorem decString_length (n : Nat) :
    (decString n).length = (decDigits n).length := by
  simp [decString, String.length]

theorem string_mk_length (l : List Char) : (String.mk l).length = l.length := rfl

theorem zeroPad_length (w : Nat) (s : String) :
    (zeroPad w s).length = max w s.length := by
  unfold zeroPad
  split
  · rw [String.length_append, string_mk_length, List.length_replicate]
    omega
  · omega

theorem zeroPad_length_of_le {w : Nat} {s : String} (h : s.length ≤ w) :
    (zeroPad w s).length = w := by
  rw [zeroPad_length]; omega

/-! ### Result records (struct sub_text_t, lines 62-68)

`sub_text_t` caches `{counter, start_pts, end_pts, text}`.  The `text`
pointer may be NULL when OCR failed for the frame (do_ocr pushes the result
regardless); this is modelled as `Option String`, `none` being the failure
marker. -/

structure SubText where
  counter : Nat
  start_pts : Nat
  end_pts : Nat
  text : Option String
deriving DecidableEq, Repr

/-- `UINT_MAX` on the 32-bit `unsigned` used by the source. -/
def UINT_MAX : Nat := 4294967295

/-! ### Sort step (lines 442-447)

`std::sort` with comparator `a.counter < b.counter`: the result is a
permutation of the input that is sorted with respect to the comparator
(consecutive elements `a, b` satisfy `¬(b.counter < a.counter)`, i.e.
`a.counter ≤ b.counter`).  `List.mergeSort` with `a.counter ≤ b.counter`
realises exactly this postcondition. -/

def sortConvSubs (l : List SubText) : List SubText :=
  l.mergeSort fun a b => a.counter ≤ b.counter

/-! ### End-timestamp repair (lines 450-452)

```
for (unsigned i = 0; i < conv_subs.size(); ++i) {
  if (conv_subs[i].end_pts == UINT_MAX || (dumb && i + 1 < conv_subs.size()))
    conv_subs[i].end_pts = conv_subs[i + 1].start_pts;
  ...
```

The repair of entry `i` reads `conv_subs[i + 1].start_pts`; `start_pts`
fields are never written by this loop, so repairing left-to-right over the
original list is equivalent.  The condition `i + 1 < conv_subs.size()`
guards only the `dumb` disjunct: when `end_pts == UINT_MAX` holds at the
last index, the source reads `conv_subs[i + 1]` one past the end of the
vector — undefined behavior, modelled as `none`. -/

def fixEndPts (dumb : Bool) : List SubText → Option (List SubText)
  | [] => some []
  | x :: xs =>
    if x.end_pts = UINT_MAX ∨ (dumb = true ∧ xs ≠ []) then
      match xs with
      | [] => none
      | y :: _ =>
        match fixEndPts dumb xs with
        | none => none
        | some rest => some ({ x with end_pts := y.start_pts } :: rest)
    else
      match fixEndPts dumb xs with
      | none => none
      | some rest => some (x :: rest)

/-! ### Serialization (lines 454-456)

Each record is written as `"%u\n%s --> %s\n%s\n\n"` with the counter, the
two formatted timestamps and the text pointer (NULL when OCR failed — kept
as the `Option` marker here rather than committing to a particular libc's
rendering of a NULL `%s` argument). -/

structure SrtRecord where
  counter : Nat
  startStr : String
  endStr : String
  text : Option String
deriving DecidableEq, Repr

def serializeSubs (l : List SubText) : List SrtRecord :=
  l.map fun s => ⟨s.counter, pts2srt s.start_pts, pts2srt s.end_pts, s.text⟩

/-- The whole reconciliation tail of `main`: sort, repair, serialize.
`none` models the out-of-bounds read in the repair pass. -/
def emitSrt (dumb : Bool) (l : List SubText) : Option (List SrtRecord) :=
  (fixEndPts dumb (sortConvSubs l)).map serializeSubs

/-! ### Image inversion (struct ImageInverter, lines 50-59) -/

def invertImage (image : List Nat) : List Nat :=
  image.map fun b => if 255 - b > 0x80 then 0xff else 0

/-! ### Trailing-whitespace trim in do_ocr (lines 163-166)

`while (size > 0 and isspace(text[--size])) text[size] = '\0';` removes the
longest run of trailing bytes satisfying C `isspace` (the six characters of
the C locale). -/

def isspaceC (c : Char) : Bool :=
  c = ' ' || c = '\t' || c = '\n' || c = '\x0b' || c = '\x0c' || c = '\r'

def trimTrailing (s : String) : String :=
  String.mk ((s.data.reverse.dropWhile isspaceC).reverse)

/-! ### Decoder packets (the per-iteration data of the loop at lines 345-430)

One `Packet` bundles what one iteration of the read loop observes: the
`timestamp` (`int`, from `vobsub_get_next_packet`) and the frame data that
`spudec_get_data` reports after assembling the packet.  The decoder itself
(`vobsub_*`, `spudec_*`) is an external collaborator. -/

structure Packet where
  timestamp : Int
  width : Nat
  height : Nat
  stride : Nat
  start_pts : Nat
  end_pts : Nat
  image : List Nat
deriving DecidableEq, Repr

/-- The run configuration relevant to the main loop.  `max_threads` is the
value after the `<= 0 → hardware_concurrency()` fixup at line 330. -/
structure Config where
  dumb : Bool
  min_width : Nat
  min_height : Nat
  max_threads : Nat
deriving DecidableEq, Repr

/-! ### Worker slots (struct ocr_thread_t, lines 177-182)

`hasThread` models `t != NULL` (an unjoined std::thread object is attached),
`done` the atomic completion flag.  The engine handle itself is opaque and
carries no state the claims inspect. -/

structure Slot where
  hasThread : Bool
  done : Bool
deriving DecidableEq, Repr

structure LoopState where
  last_start_pts : Nat
  sub_counter : Nat
  conv_subs : List SubText
  slots : List Slot
deriving DecidableEq, Repr

/-- `last_start_pts = 0`, `sub_counter = 1`, empty aggregator, empty pool
(lines 332-343). -/
def initState : LoopState := ⟨0, 1, [], []⟩

/-- The result `do_ocr` pushes into the aggregator (lines 151-175): the
text returned by the engine, trailing whitespace trimmed, or `none` on
recognition failure; always pushed, together with counter and both pts.
`recognize` abstracts `TesseractRect(image, 1, stride, 0, 0, width, height)`
on the (inverted) image copy. -/
def mkResult (recognize : List Nat → Nat → Nat → Nat → Option String)
    (counter : Nat) (p : Packet) : SubText :=
  { counter := counter
    start_pts := p.start_pts
    end_pts := p.end_pts
    text := (recognize (invertImage p.image) p.stride p.width p.height).map
              trimTrailing }

/-! ### Slot acquisition (lines 390-411)

Branch 1: pool below capacity — construct a fresh engine handle (`initOk k`
tells whether constructing the `k`-th handle succeeds; on failure `main`
returns −1, modelled as `none`) and push a fresh slot.  Branch 2:
`max_threads == 1` — reuse the single slot.  Branch 3 (saturated, N > 1):
poll until some slot's `done` flag is set; which slot finishes first is
scheduler-dependent, abstracted by `sched` (the poll joins that slot's
thread before reuse).  The acquired slot's index is returned with the
updated pool. -/

def acquireSlot (cfg : Config) (initOk : Nat → Bool) (sched : Nat → Nat)
    (s : LoopState) : Option (List Slot × Nat) :=
  if s.slots.length < cfg.max_threads then
    if initOk s.slots.length then
      some (s.slots ++ [⟨false, false⟩], s.slots.length)
    else
      none
  else if cfg.max_threads = 1 then
    some (s.slots, 0)
  else
    let j := sched s.sub_counter % s.slots.length
    some (s.slots.set j ⟨false, true⟩, j)

/-! ### One loop iteration (lines 345-429)

In source order: packets with negative timestamp are not decoded; a frame
whose `start_pts` equals `last_start_pts` is another packet of the same
subtitle and skipped; `last_start_pts` is updated; frames below the minimum
size are skipped with a warning; otherwise a slot is acquired and the frame
dispatched — inline `do_ocr` when `max_threads == 1` (the completion flag is
set by the inline call, no thread object is created), else on a new thread
(`done = false`, thread attached; the thread's eventual append is recorded
at dispatch, one result per dispatched frame).  `sub_counter` increments
once per dispatched frame. -/

def stepPacket (cfg : Config)
    (recognize : List Nat → Nat → Nat → Nat → Option String)
    (initOk : Nat → Bool) (sched : Nat → Nat)
    (s : LoopState) (p : Packet) : Except Unit LoopState :=
  if p.timestamp < 0 then .ok s
  else if p.start_pts = s.last_start_pts then .ok s
  else
    let s1 : LoopState := { s with last_start_pts := p.start_pts }
    if p.width < cfg.min_width ∨ p.height < cfg.min_height then .ok s1
    else
      match acquireSlot cfg initOk sched s1 with
      | none => .error ()
      | some (slots, idx) =>
        let r := mkResult recognize s1.sub_counter p
        if cfg.max_threads = 1 then
          .ok { s1 with
                slots := slots.set idx ⟨(slots.getD idx ⟨false, false⟩).hasThread,
                                        true⟩
                conv_subs := s1.conv_subs ++ [r]
                sub_counter := s1.sub_counter + 1 }
        else
          .ok { s1 with
                slots := slots.set idx ⟨true, false⟩
                conv_subs := s1.conv_subs ++ [r]
                sub_counter := s1.sub_counter + 1 }

/-- The whole read loop (line 345): fold `stepPacket` over the packet
stream, short-circuiting on the fatal engine-construction failure. -/
def processPackets (cfg : Config)
    (recognize : List Nat → Nat → Nat → Nat → Option String)
    (initOk : Nat → Bool) (sched : Nat → Nat)
    (packets : List Packet) : Except Unit LoopState :=
  packets.foldlM (stepPacket cfg recognize initOk sched) initState

/-- Whole-run observable behavior: the records written to the `.srt` file
and the exit code.  On engine-construction failure `main` returns −1 having
written nothing (all `fprintf(srtout, ...)` calls sit in the final loop);
`none` models the undefined behavior of the repair pass's out-of-bounds
read. -/
def runMain (cfg : Config)
    (recognize : List Nat → Nat → Nat → Nat → Option String)
    (initOk : Nat → Bool) (sched : Nat → Nat)
    (packets : List Packet) : Option (List SrtRecord × Int) :=
  match processPackets cfg recognize initOk sched packets with
  | .error _ => some ([], -1)
  | .ok s => (emitSrt cfg.dumb s.conv_subs).map fun recs => (recs, 0)

/-! ### Helper lemmas about the loop step -/

/-- A packet whose frame repeats the current `last_start_pts` leaves the
state untouched (lines 356-360); so does a packet with negative timestamp
(line 346). -/
theorem stepPacket_of_start_eq (cfg : Config)
    (recognize : List Nat → Nat → Nat → Nat → Option String)
    (initOk : Nat → Bool) (sched : Nat → Nat) (s : LoopState) (p : Packet)
    (h : p.start_pts = s.last_start_pts) :
    stepPacket cfg recognize initOk sched s p = .ok s := by
  unfold stepPacket
  split
  · rfl
  · simp [h]

/-- A dispatched frame (non-negative timestamp, fresh start, size gate
passed) that yields `.ok` appends exactly the `do_ocr` result, bumps the
counter, and records the frame's start as `last_start_pts`. -/
theorem stepPacket_dispatch (cfg : Config)
    (recognize : List Nat → Nat → Nat → Nat → Option String)
    (initOk : Nat → Bool) (sched : Nat → Nat) (s : LoopState) (p : Packet)
    (hts : 0 ≤ p.timestamp) (hdup : p.start_pts ≠ s.last_start_pts)
    (hsize : ¬(p.width < cfg.min_width ∨ p.height < cfg.min_height))
    (s' : LoopState)
    (h : stepPacket cfg recognize initOk sched s p = .ok s') :
    s'.last_start_pts = p.start_pts
    ∧ s'.conv_subs = s.conv_subs ++ [mkResult recognize s.sub_counter p]
    ∧ s'.sub_counter = s.sub_counter + 1 := by
  unfold stepPacket at h
  rw [if_neg (by omega), if_neg hdup, if_neg hsize] at h
  split at h
  · simp at h
  · split at h <;> (injection h with h; subst h; exact ⟨rfl, rfl, rfl⟩)

/-- `acquireSlot` never shrinks capacity past the bound: if the pool
satisfies `length ≤ N` before, the returned pool does too (a fresh slot is
only pushed while `length < N`). -/
theorem acquireSlot_length (cfg : Config) (initOk : Nat → Bool)
    (sched : Nat → Nat) (s : LoopState) (slots : List Slot) (idx : Nat)
    (h : acquireSlot cfg initOk sched s = some (slots, idx))
    (hlen : s.slots.length ≤ cfg.max_threads) :
    slots.length ≤ cfg.max_threads := by
  unfold acquireSlot at h
  split at h
  · split at h
    · injection h with h; cases h; simp; omega
    · exact absurd h (by simp)
  · split at h
    · injection h with h; cases h; omega
    · injection h with h; cases h; simp; omega

/-- `acquireSlot` creates slots with no attached thread and detaches the
thread of a reused slot: when every slot of the pool has `hasThread =
false`, this still holds for the returned pool. -/
theorem acquireSlot_hasThread (cfg : Config) (initOk : Nat → Bool)
    (sched : Nat → Nat) (s : LoopState) (slots : List Slot) (idx : Nat)
    (h : acquireSlot cfg initOk sched s = some (slots, idx))
    (hth : ∀ sl ∈ s.slots, sl.hasThread = false) :
    ∀ sl ∈ slots, sl.hasThread = false := by
  unfold acquireSlot at h
  split at h
  · split at h
    · injection h with h; cases h
      intro sl hsl
      rcases List.mem_append.mp hsl with hmem | hmem
      · exact hth sl hmem
      · simp at hmem; simp [hmem]
    · exact absurd h (by simp)
  · split at h
    · injection h with h; cases h; exact hth
    · injection h with h; cases h
      intro sl hsl
      rcases List.mem_or_eq_of_mem_set hsl with hmem | rfl
      · exact hth sl hmem
      · rfl

/-! ### Helper lemmas about the reconciliation tail -/

/-- The repair pass only rewrites `end_pts`: counters and texts are
preserved positionally. -/
theorem fixEndPts_counter_text (dumb : Bool) :
    ∀ l l', fixEndPts dumb l = some l' →
      l'.map (fun x => (x.counter, x.text)) = l.map fun x => (x.counter, x.text)
  | [], l', h => by
    unfold fixEndPts at h
    injection h with h
    subst h
    rfl
  | x :: xs, l', h => by
    unfold fixEndPts at h
    split at h
    · match xs, h with
      | [], h => simp at h
      | y :: ys, h =>
        rcases hrec : fixEndPts dumb (y :: ys) with _ | rest <;> rw [hrec] at h
        · simp at h
        · injection h with h
          subst h
          simpa using fixEndPts_counter_text dumb (y :: ys) rest hrec
    · rcases hrec : fixEndPts dumb xs with _ | rest <;> rw [hrec] at h
      · simp at h
      · injection h with h
        subst h
        simpa using fixEndPts_counter_text dumb xs rest hrec

/-- Every aggregated result survives into the emitted record set with its
counter and its text (possibly-`none`) intact, whenever the
repair-and-serialize pass completes. -/
theorem emitSrt_mem (dumb : Bool) (l : List SubText) (recs : List SrtRecord)
    (r : SubText) (hr : r ∈ l) (h : emitSrt dumb l = some recs) :
    ∃ rec ∈ recs, rec.counter = r.counter ∧ rec.text = r.text := by
  unfold emitSrt at h
  rcases hfix : fixEndPts dumb (sortConvSubs l) with _ | l2 <;> rw [hfix] at h
  · simp at h
  · injection h with h
    subst h
    have hmem : r ∈ sortConvSubs l :=
      ((List.mergeSort_perm l _).mem_iff).mpr hr
    have hmaps := fixEndPts_counter_text dumb (sortConvSubs l) l2 hfix
    have : (r.counter, r.text) ∈ l2.map fun x => (x.counter, x.text) := by
      rw [hmaps]
      exact List.mem_map.mpr ⟨r, hmem, rfl⟩
    rcases List.mem_map.mp this with ⟨x, hx, hxr⟩
    refine ⟨⟨x.counter, pts2srt x.start_pts, pts2srt x.end_pts, x.text⟩, ?_, ?_, ?_⟩
    · exact List.mem_map.mpr ⟨x, hx, rfl⟩
    · exact congrArg Prod.fst hxr
    · exact congrArg Prod.snd hxr

/-! ### Invariant propagation over the packet fold -/

theorem foldlM_except_inv {σ α ε : Type} (f : σ → α → Except ε σ)
    (P : σ → Prop)
    (hf : ∀ s a s', P s → f s a = .ok s' → P s') :
    ∀ (l : List α) (s s' : σ), P s → l.foldlM f s = .ok s' → P s'
  | [], s, s', hs, h => by
    simp only [List.foldlM_nil] at h
    injection h with h
    subst h
    exact hs
  | a :: l, s, s', hs, h => by
    simp only [List.foldlM_cons] at h
    rcases hfa : f s a with _ | s1 <;> rw [hfa] at h
    · simp [Bind.bind, Except.bind] at h
    · have h1 : l.foldlM f s1 = .ok s' := by
        simpa [Bind.bind, Except.bind] using h
      exact foldlM_except_inv f P hf l s1 s' (hf s a s1 hs hfa) h1

/-- The pool invariant of the main loop: never more slots than
`max_threads`, and in the single-threaded configuration no slot ever has a
thread attached. -/
def PoolInv (cfg : Config) (s : LoopState) : Prop :=
  s.slots.length ≤ cfg.max_threads
  ∧ (cfg.max_threads = 1 → ∀ sl ∈ s.slots, sl.hasThread = false)

theorem stepPacket_preserves_poolInv (cfg : Config)
    (recognize : List Nat → Nat → Nat → Nat → Option String)
    (initOk : Nat → Bool) (sched : Nat → Nat)
    (s : LoopState) (p : Packet) (s' : LoopState)
    (hinv : PoolInv cfg s)
    (h : stepPacket cfg recognize initOk sched s p = .ok s') :
    PoolInv cfg s' := by
  obtain ⟨hlen, hth⟩ := hinv
  unfold stepPacket at h
  split at h
  · injection h with h; subst h; exact ⟨hlen, hth⟩
  · split at h
    · injection h with h; subst h; exact ⟨hlen, hth⟩
    · split at h
      · injection h with h; subst h; exact ⟨hlen, hth⟩
      · -- dispatch: split first on the `max_threads == 1` test, then on the
        -- acquisition result
        split at h
        · rename_i hN1
          dsimp only at h
          split at h
          · simp at h
          · rename_i slots idx heq
            have hlen2 : slots.length ≤ cfg.max_threads :=
              acquireSlot_length cfg initOk sched _ slots idx heq hlen
            injection h with h
            subst h
            refine ⟨by simpa using hlen2, fun _ sl hsl => ?_⟩
            have hth2 : ∀ sl ∈ slots, sl.hasThread = false :=
              acquireSlot_hasThread cfg initOk sched _ slots idx heq
                (fun sl hsl => hth hN1 sl hsl)
            rcases List.mem_or_eq_of_mem_set hsl with hmem | rfl
            · exact hth2 sl hmem
            · dsimp only
              rw [List.getD_eq_getElem?_getD]
              cases hg : slots[idx]? with
              | none => rfl
              | some sl0 => exact hth2 sl0 (List.getElem?_mem hg)
        · rename_i hN1
          dsimp only at h
          split at h
          · simp at h
          · rename_i slots idx heq
            have hlen2 : slots.length ≤ cfg.max_threads :=
              acquireSlot_length cfg initOk sched _ slots idx heq hlen
            injection h with h
            subst h
            exact ⟨by simpa using hlen2, fun h1 => absurd h1 hN1⟩

/-! ## Claim theorems -/

/-- C2: for every timestamp `t` (a 32-bit `unsigned`, in units of 1/90 ms),
`pts2srt` decomposes `t / 90` (integer division) into hours, minutes,
seconds, milliseconds with
`hours*3600000 + minutes*60000 + seconds*1000 + ms = t / 90`, minutes and
seconds in `[0, 60)`, milliseconds in `[0, 1000)`, rendered as
`HH:MM:SS,mmm` with minutes/seconds exactly 2 digits, milliseconds exactly
3 digits, hours at least 2 digits (each field rendered by the `%0wd`
padding `zeroPad`, which grows beyond the minimum width if the value
needs more digits); in particular `pts2srt 9000 = "00:00:00,100"`. -/
theorem c2_pts2srt_decomposes (pts : Nat) (hpts : pts < 2 ^ 32) :
    srtH pts * 3600000 + srtM pts * 60000 + srtS pts * 1000 + srtMs pts = pts / 90
    ∧ srtM pts < 60 ∧ srtS pts < 60 ∧ srtMs pts < 1000
    ∧ pts2srt pts =
        zeroPad 2 (decString (srtH pts)) ++ ":" ++ zeroPad 2 (decString (srtM pts))
          ++ ":" ++ zeroPad 2 (decString (srtS pts)) ++ ","
          ++ zeroPad 3 (decString (srtMs pts))
    ∧ (zeroPad 2 (decString (srtH pts))).length = 2
    ∧ (zeroPad 2 (decString (srtM pts))).length = 2
    ∧ (zeroPad 2 (decString (srtS pts))).length = 2
    ∧ (zeroPad 3 (decString (srtMs pts))).length = 3
    ∧ pts2srt 9000 = "00:00:00,100" := by
  have hH : srtH pts < 100 := by
    unfold srtH
    omega
  have hM : srtM pts < 60 := by
    unfold srtM srtMsAfterH srtH
    omega
  have hS : srtS pts < 60 := by
    unfold srtS srtMsAfterM srtM srtMsAfterH srtH
    omega
  have hMs : srtMs pts < 1000 := by
    unfold srtMs
    omega
  refine ⟨?_, hM, hS, hMs, rfl, ?_, ?_, ?_, ?_, rfl⟩
  · unfold srtMs srtS srtMsAfterM srtM srtMsAfterH srtH
    omega
  · refine zeroPad_length_of_le ?_
    rw [decString_length]
    exact decDigits_length_le_two hH
  · refine zeroPad_length_of_le ?_
    rw [decString_length]
    exact decDigits_length_le_two (by omega)
  · refine zeroPad_length_of_le ?_
    rw [decString_length]
    exact decDigits_length_le_two (by omega)
  · refine zeroPad_length_of_le ?_
    rw [decString_length]
    exact decDigits_length_le_three hMs

theorem c2_pts2srt_decomposes_witness :
    9000 < 2 ^ 32
    ∧ (srtH 9000 * 3600000 + srtM 9000 * 60000 + srtS 9000 * 1000 + srtMs 9000
        = 9000 / 90
      ∧ srtM 9000 < 60 ∧ srtS 9000 < 60 ∧ srtMs 9000 < 1000
      ∧ pts2srt 9000 =
          zeroPad 2 (decString (srtH 9000)) ++ ":"
            ++ zeroPad 2 (decString (srtM 9000)) ++ ":"
            ++ zeroPad 2 (decString (srtS 9000)) ++ ","
            ++ zeroPad 3 (decString (srtMs 9000))
      ∧ (zeroPad 2 (decString (srtH 9000))).length = 2
      ∧ (zeroPad 2 (decString (srtM 9000))).length = 2
      ∧ (zeroPad 2 (decString (srtS 9000))).length = 2
      ∧ (zeroPad 3 (decString (srtMs 9000))).length = 3
      ∧ pts2srt 9000 = "00:00:00,100") :=
  ⟨by decide, c2_pts2srt_decomposes 9000 (by decide)⟩

/-- C3: for every aggregated result collection whose sequence counters are
pairwise distinct, the sorted collection (std::sort by `counter <`,
lines 442-447) is strictly ordered by ascending sequence counter — in
particular it contains no duplicate counters. -/
theorem c3_sort_strictly_ascending (l : List SubText)
    (h : l.Pairwise fun a b => a.counter ≠ b.counter) :
    (sortConvSubs l).Pairwise fun a b => a.counter < b.counter := by
  unfold sortConvSubs
  have hs : (l.mergeSort fun a b => a.counter ≤ b.counter).Pairwise
      (fun a b : SubText => ((a.counter ≤ b.counter : Bool) : Prop)) :=
    List.sorted_mergeSort
      (fun a b c hab hbc => by
        simp only [decide_eq_true_eq] at hab hbc ⊢
        omega)
      (fun a b => by
        simp only [Bool.or_eq_true, decide_eq_true_eq]
        omega)
      l
  have hne : (l.mergeSort fun a b => a.counter ≤ b.counter).Pairwise
      (fun a b => a.counter ≠ b.counter) :=
    (List.Perm.pairwise_iff (fun {x y} hab e => hab e.symm)
      (List.mergeSort_perm l fun a b => a.counter ≤ b.counter)).mpr h
  exact (hs.and hne).imp fun hab => by
    obtain ⟨h1, h2⟩ := hab
    simp only [decide_eq_true_eq] at h1
    omega

theorem c3_sort_strictly_ascending_witness :
    ([⟨2, 9000, 18000, none⟩, ⟨1, 0, 9000, some "a"⟩] : List SubText).Pairwise
      (fun a b => a.counter ≠ b.counter)
    ∧ (sortConvSubs [⟨2, 9000, 18000, none⟩, ⟨1, 0, 9000, some "a"⟩]).Pairwise
        fun a b => a.counter < b.counter :=
  ⟨by decide,
   c3_sort_strictly_ascending [⟨2, 9000, 18000, none⟩, ⟨1, 0, 9000, some "a"⟩]
     (by decide)⟩

/-- C1: the claim as a whole fails on the code.  Its non-last half is
correct: for the two-element list below, the first result's sentinel end is
repaired to the successor's start.  Its last-element half does not hold:
for the singleton whose end is the sentinel, the source's condition
`conv_subs[i].end_pts == UINT_MAX` carries no `i + 1 < conv_subs.size()`
guard (line 451), so the repair reads `conv_subs[i + 1]` one past the end
of the vector instead of emitting the result as-is — the embedded pass
returns `none` (undefined behavior) rather than leaving the entry
unrepaired. -/
theorem c1_last_sentinel_not_emitted_as_is :
    fixEndPts false [⟨1, 0, UINT_MAX, some "a"⟩] = none
    ∧ fixEndPts false [⟨1, 0, UINT_MAX, some "a"⟩, ⟨2, 900, 1800, some "b"⟩]
        = some [⟨1, 0, 900, some "a"⟩, ⟨2, 900, 1800, some "b"⟩] :=
  ⟨rfl, rfl⟩

/-- C9: refuted.  When the last result's end timestamp equals the sentinel,
the repair loop does read past the end of the collection: on the
two-element list below, the iteration at index 1 evaluates
`conv_subs[2].start_pts` although the collection has size 2 (the embedded
pass returns `none`, modelling the out-of-bounds access). -/
theorem c9_repair_reads_past_end :
    fixEndPts false [⟨1, 0, 90, some "a"⟩, ⟨2, 100, UINT_MAX, some "b"⟩]
      = none := rfl

/-- C4: duplicate-start suppression.  If a decoded frame `p1` is dispatched
from state `s` (fresh start, size gate passed, step succeeded), then exactly
one OCR result is appended for it, and the immediately following decoded
frame `p2` with the identical start timestamp is a no-op: the state is
unchanged, so `p2` consumes no worker slot, does not increment the sequence
counter, and produces no OCR result. -/
theorem c4_duplicate_start_suppressed (cfg : Config)
    (recognize : List Nat → Nat → Nat → Nat → Option String)
    (initOk : Nat → Bool) (sched : Nat → Nat)
    (s : LoopState) (p1 p2 : Packet)
    (hts1 : 0 ≤ p1.timestamp) (hts2 : 0 ≤ p2.timestamp)
    (hdup : p1.start_pts ≠ s.last_start_pts)
    (hsize : ¬(p1.width < cfg.min_width ∨ p1.height < cfg.min_height))
    (hstart : p2.start_pts = p1.start_pts)
    (s1 : LoopState)
    (h1 : stepPacket cfg recognize initOk sched s p1 = .ok s1) :
    s1.conv_subs.length = s.conv_subs.length + 1
    ∧ s1.sub_counter = s.sub_counter + 1
    ∧ stepPacket cfg recognize initOk sched s1 p2 = .ok s1 := by
  obtain ⟨hlast, hsubs, hcnt⟩ :=
    stepPacket_dispatch cfg recognize initOk sched s p1 hts1 hdup hsize s1 h1
  refine ⟨by rw [hsubs]; simp, hcnt, ?_⟩
  exact stepPacket_of_start_eq cfg recognize initOk sched s1 p2
    (by rw [hstart, hlast])

/-- C5: per-frame recognition failure is non-fatal.  When the engine
returns no text for a dispatched frame, the step still succeeds (`.ok`, so
the fold over later packets continues), an OCR result for the frame is
appended with the `none` failure marker as text, the counter advances, and
whenever the repair-and-serialize pass completes on a collection containing
that result, an output record with this counter and the failure-marker text
is emitted. -/
theorem c5_recognition_failure_nonfatal (cfg : Config)
    (recognize : List Nat → Nat → Nat → Nat → Option String)
    (initOk : Nat → Bool) (sched : Nat → Nat)
    (s : LoopState) (p : Packet)
    (hts : 0 ≤ p.timestamp)
    (hdup : p.start_pts ≠ s.last_start_pts)
    (hsize : ¬(p.width < cfg.min_width ∨ p.height < cfg.min_height))
    (hfail : recognize (invertImage p.image) p.stride p.width p.height = none)
    (s' : LoopState)
    (hstep : stepPacket cfg recognize initOk sched s p = .ok s') :
    s'.conv_subs = s.conv_subs ++ [⟨s.sub_counter, p.start_pts, p.end_pts, none⟩]
    ∧ s'.sub_counter = s.sub_counter + 1
    ∧ ∀ (dumb : Bool) (l : List SubText) (recs : List SrtRecord),
        (⟨s.sub_counter, p.start_pts, p.end_pts, none⟩ : SubText) ∈ l →
        emitSrt dumb l = some recs →
        ∃ rec ∈ recs, rec.counter = s.sub_counter ∧ rec.text = none := by
  obtain ⟨hlast, hsubs, hcnt⟩ :=
    stepPacket_dispatch cfg recognize initOk sched s p hts hdup hsize s' hstep
  have hres : mkResult recognize s.sub_counter p
      = ⟨s.sub_counter, p.start_pts, p.end_pts, none⟩ := by
    unfold mkResult
    rw [hfail]
    rfl
  refine ⟨by rw [hsubs, hres], hcnt, fun dumb l recs hmem hemit => ?_⟩
  exact emitSrt_mem dumb l recs _ hmem hemit

/-- C6: size gate.  A frame whose width or height falls below the
configured minimums never reaches the pool: the step succeeds but appends
no OCR result, does not advance the sequence counter, and leaves the slot
pool untouched (only `last_start_pts` may be recorded, line 361, since that
assignment precedes the gate). -/
theorem c6_size_gate_no_result (cfg : Config)
    (recognize : List Nat → Nat → Nat → Nat → Option String)
    (initOk : Nat → Bool) (sched : Nat → Nat)
    (s : LoopState) (p : Packet)
    (hsize : p.width < cfg.min_width ∨ p.height < cfg.min_height) :
    ∃ s', stepPacket cfg recognize initOk sched s p = .ok s'
      ∧ s'.conv_subs = s.conv_subs
      ∧ s'.sub_counter = s.sub_counter
      ∧ s'.slots = s.slots := by
  unfold stepPacket
  split
  · exact ⟨s, rfl, rfl, rfl, rfl⟩
  · split
    · exact ⟨s, rfl, rfl, rfl, rfl⟩
    · exact ⟨_, rfl, rfl, rfl, rfl⟩

/-- C7: fatal-error policy.  If constructing an engine handle fails at any
point of the packet stream (`processPackets` short-circuits to the `main`
return value −1, lines 392-394), the whole run terminates with exit
indication −1 and the output artifact receives no records — regardless of
any packets still queued behind the failure point, which are abandoned. -/
theorem c7_engine_init_failure_aborts (cfg : Config)
    (recognize : List Nat → Nat → Nat → Nat → Option String)
    (initOk : Nat → Bool) (sched : Nat → Nat)
    (ps : List Packet)
    (h : processPackets cfg recognize initOk sched ps = .error ())
    (rest : List Packet) :
    runMain cfg recognize initOk sched (ps ++ rest) = some ([], -1) := by
  have hall : processPackets cfg recognize initOk sched (ps ++ rest)
      = .error () := by
    unfold processPackets at h ⊢
    rw [List.foldlM_append, h]
    rfl
  unfold runMain
  rw [hall]

/-- C8: pool-capacity invariant.  For every configuration with
`max_threads ≥ 1` and every reachable state of the run (the packet list
`ps` ranges over all prefixes of all streams), the pool never holds more
than `max_threads` slots — hence at most `max_threads` recognition calls
can be in flight, each occupying a distinct slot — the count of slots with
an attached thread is likewise bounded, and in the `max_threads = 1`
configuration no slot ever has a thread attached: recognition is fully
synchronous and inline. -/
theorem c8_pool_capacity_invariant (cfg : Config)
    (recognize : List Nat → Nat → Nat → Nat → Option String)
    (initOk : Nat → Bool) (sched : Nat → Nat)
    (hN : 1 ≤ cfg.max_threads)
    (ps : List Packet) (s' : LoopState)
    (h : processPackets cfg recognize initOk sched ps = .ok s') :
    s'.slots.length ≤ cfg.max_threads
    ∧ (s'.slots.filter fun sl => sl.hasThread).length ≤ cfg.max_threads
    ∧ (cfg.max_threads = 1 → ∀ sl ∈ s'.slots, sl.hasThread = false) := by
  have hinv : PoolInv cfg s' :=
    foldlM_except_inv _ (PoolInv cfg)
      (fun s p s'' hs hstep =>
        stepPacket_preserves_poolInv cfg recognize initOk sched s p s'' hs hstep)
      ps initState s'
      ⟨Nat.zero_le _, fun _ _ hsl => by simp [initState] at hsl⟩ h
  obtain ⟨h1, h2⟩ := hinv
  exact ⟨h1, le_trans (List.length_filter_le _ _) h1, h2⟩

/-- C10: because `last_start_pts` is initialized to 0 (line 338), the
run's very first decoded frame whose start timestamp equals 0 is suppressed
by the duplicate-start check even though no earlier frame exists: the step
returns the initial state unchanged, so no OCR result is produced for it. -/
theorem c10_first_zero_start_suppressed (cfg : Config)
    (recognize : List Nat → Nat → Nat → Nat → Option String)
    (initOk : Nat → Bool) (sched : Nat → Nat)
    (p : Packet)
    (hts : 0 ≤ p.timestamp) (hstart : p.start_pts = 0) :
    initState.last_start_pts = 0
    ∧ stepPacket cfg recognize initOk sched initState p = .ok initState
    ∧ initState.conv_subs = [] :=
  ⟨rfl,
   stepPacket_of_start_eq cfg recognize initOk sched initState p
     (by rw [hstart]; rfl),
   rfl⟩

theorem c4_duplicate_start_suppressed_witness :
    (0 : Int) ≤ (5 : Int)
    ∧ (0 : Int) ≤ (6 : Int)
    ∧ (90 : Nat) ≠ initState.last_start_pts
    ∧ ¬((20 : Nat) < 9 ∨ (20 : Nat) < 1)
    ∧ (90 : Nat) = (90 : Nat)
    ∧ stepPacket ⟨false, 9, 1, 2⟩ (fun _ _ _ _ => some "hi") (fun _ => true)
        (fun _ => 0) initState ⟨5, 20, 20, 20, 90, 180, [0]⟩
        = .ok ⟨90, 2, [⟨1, 90, 180, some "hi"⟩], [⟨true, false⟩]⟩
    ∧ (⟨90, 2, [⟨1, 90, 180, some "hi"⟩], [⟨true, false⟩]⟩
          : LoopState).conv_subs.length = initState.conv_subs.length + 1
    ∧ (⟨90, 2, [⟨1, 90, 180, some "hi"⟩], [⟨true, false⟩]⟩
          : LoopState).sub_counter = initState.sub_counter + 1
    ∧ stepPacket ⟨false, 9, 1, 2⟩ (fun _ _ _ _ => some "hi") (fun _ => true)
        (fun _ => 0) ⟨90, 2, [⟨1, 90, 180, some "hi"⟩], [⟨true, false⟩]⟩
        ⟨6, 20, 20, 20, 90, 270, [1]⟩
        = .ok ⟨90, 2, [⟨1, 90, 180, some "hi"⟩], [⟨true, false⟩]⟩ := by
  have h := c4_duplicate_start_suppressed ⟨false, 9, 1, 2⟩
    (fun _ _ _ _ => some "hi") (fun _ => true) (fun _ => 0) initState
    ⟨5, 20, 20, 20, 90, 180, [0]⟩ ⟨6, 20, 20, 20, 90, 270, [1]⟩
    (by decide) (by decide) (by decide) (by decide) rfl
    ⟨90, 2, [⟨1, 90, 180, some "hi"⟩], [⟨true, false⟩]⟩ rfl
  exact ⟨by decide, by decide, by decide, by decide, rfl, rfl, h.1, h.2.1, h.2.2⟩

theorem c5_recognition_failure_nonfatal_witness :
    (0 : Int) ≤ (0 : Int)
    ∧ (90 : Nat) ≠ initState.last_start_pts
    ∧ ¬((5 : Nat) < 1 ∨ (5 : Nat) < 1)
    ∧ (fun (_ : List Nat) (_ _ _ : Nat) => (none : Option String))
        (invertImage [0]) 5 5 5 = none
    ∧ stepPacket ⟨false, 1, 1, 1⟩ (fun _ _ _ _ => none) (fun _ => true)
        (fun _ => 0) initState ⟨0, 5, 5, 5, 90, 180, [0]⟩
        = .ok ⟨90, 2, [⟨1, 90, 180, none⟩], [⟨false, true⟩]⟩
    ∧ (⟨90, 2, [⟨1, 90, 180, none⟩], [⟨false, true⟩]⟩ : LoopState).conv_subs
        = initState.conv_subs ++ [⟨initState.sub_counter, 90, 180, none⟩]
    ∧ (⟨90, 2, [⟨1, 90, 180, none⟩], [⟨false, true⟩]⟩ : LoopState).sub_counter
        = initState.sub_counter + 1
    ∧ (⟨1, 90, 180, none⟩ : SubText) ∈ ([⟨1, 90, 180, none⟩] : List SubText)
    ∧ emitSrt false [⟨1, 90, 180, none⟩]
        = some [⟨1, "00:00:00,001", "00:00:00,002", none⟩]
    ∧ ∃ rec ∈ ([⟨1, "00:00:00,001", "00:00:00,002", none⟩] : List SrtRecord),
        rec.counter = initState.sub_counter ∧ rec.text = none := by
  have hemit : emitSrt false [(⟨1, 90, 180, none⟩ : SubText)]
      = some [⟨1, "00:00:00,001", "00:00:00,002", none⟩] := by
    simp [emitSrt, sortConvSubs, List.mergeSort, fixEndPts, UINT_MAX,
      serializeSubs]
    constructor
    · rfl
    · rfl
  have h := c5_recognition_failure_nonfatal ⟨false, 1, 1, 1⟩
    (fun _ _ _ _ => none) (fun _ => true) (fun _ => 0) initState
    ⟨0, 5, 5, 5, 90, 180, [0]⟩
    (by decide) (by decide) (by decide) rfl
    ⟨90, 2, [⟨1, 90, 180, none⟩], [⟨false, true⟩]⟩ rfl
  exact ⟨by decide, by decide, by decide, rfl, rfl, h.1, h.2.1,
    List.mem_singleton.mpr rfl, hemit,
    h.2.2 false [⟨1, 90, 180, none⟩] [⟨1, "00:00:00,001", "00:00:00,002", none⟩]
      (List.mem_singleton.mpr rfl) hemit⟩

theorem c6_size_gate_no_result_witness :
    ((3 : Nat) < 9 ∨ (5 : Nat) < 1)
    ∧ ∃ s', stepPacket ⟨false, 9, 1, 2⟩ (fun _ _ _ _ => some "hi")
          (fun _ => true) (fun _ => 0) initState ⟨7, 3, 5, 3, 90, 180, [0]⟩
          = .ok s'
        ∧ s'.conv_subs = initState.conv_subs
        ∧ s'.sub_counter = initState.sub_counter
        ∧ s'.slots = initState.slots :=
  ⟨by decide,
   c6_size_gate_no_result ⟨false, 9, 1, 2⟩ (fun _ _ _ _ => some "hi")
     (fun _ => true) (fun _ => 0) initState ⟨7, 3, 5, 3, 90, 180, [0]⟩
     (by decide)⟩

theorem c7_engine_init_failure_aborts_witness :
    processPackets ⟨false, 1, 1, 1⟩ (fun _ _ _ _ => some "hi") (fun _ => false)
        (fun _ => 0) [⟨0, 5, 5, 5, 90, 180, [0]⟩] = .error ()
    ∧ runMain ⟨false, 1, 1, 1⟩ (fun _ _ _ _ => some "hi") (fun _ => false)
        (fun _ => 0)
        ([⟨0, 5, 5, 5, 90, 180, [0]⟩] ++ [⟨0, 5, 5, 5, 270, 360, [2]⟩])
        = some ([], -1) :=
  ⟨rfl,
   c7_engine_init_failure_aborts ⟨false, 1, 1, 1⟩ (fun _ _ _ _ => some "hi")
     (fun _ => false) (fun _ => 0) [⟨0, 5, 5, 5, 90, 180, [0]⟩] rfl
     [⟨0, 5, 5, 5, 270, 360, [2]⟩]⟩

theorem c8_pool_capacity_invariant_witness :
    1 ≤ (2 : Nat)
    ∧ processPackets ⟨false, 1, 1, 2⟩ (fun _ _ _ _ => some "hi") (fun _ => true)
        (fun _ => 0)
        [⟨0, 5, 5, 5, 90, 180, [0]⟩, ⟨0, 5, 5, 5, 270, 360, [0]⟩,
         ⟨0, 5, 5, 5, 450, 540, [0]⟩]
        = .ok ⟨450, 4,
            [⟨1, 90, 180, some "hi"⟩, ⟨2, 270, 360, some "hi"⟩,
             ⟨3, 450, 540, some "hi"⟩],
            [⟨true, false⟩, ⟨true, false⟩]⟩
    ∧ ((⟨450, 4,
          [⟨1, 90, 180, some "hi"⟩, ⟨2, 270, 360, some "hi"⟩,
           ⟨3, 450, 540, some "hi"⟩],
          [⟨true, false⟩, ⟨true, false⟩]⟩ : LoopState).slots.length ≤ 2
      ∧ ((⟨450, 4,
            [⟨1, 90, 180, some "hi"⟩, ⟨2, 270, 360, some "hi"⟩,
             ⟨3, 450, 540, some "hi"⟩],
            [⟨true, false⟩, ⟨true, false⟩]⟩
              : LoopState).slots.filter fun sl => sl.hasThread).length ≤ 2
      ∧ ((2 : Nat) = 1 →
          ∀ sl ∈ (⟨450, 4,
              [⟨1, 90, 180, some "hi"⟩, ⟨2, 270, 360, some "hi"⟩,
               ⟨3, 450, 540, some "hi"⟩],
              [⟨true, false⟩, ⟨true, false⟩]⟩ : LoopState).slots,
            sl.hasThread = false)) :=
  ⟨by decide, rfl,
   c8_pool_capacity_invariant ⟨false, 1, 1, 2⟩ (fun _ _ _ _ => some "hi")
     (fun _ => true) (fun _ => 0) (by decide)
     [⟨0, 5, 5, 5, 90, 180, [0]⟩, ⟨0, 5, 5, 5, 270, 360, [0]⟩,
      ⟨0, 5, 5, 5, 450, 540, [0]⟩]
     ⟨450, 4,
       [⟨1, 90, 180, some "hi"⟩, ⟨2, 270, 360, some "hi"⟩,
        ⟨3, 450, 540, some "hi"⟩],
       [⟨true, false⟩, ⟨true, false⟩]⟩ rfl⟩

theorem c10_first_zero_start_suppressed_witness :
    (0 : Int) ≤ (0 : Int)
    ∧ (⟨0, 20, 20, 20, 0, 90, [3]⟩ : Packet).start_pts = 0
    ∧ (initState.last_start_pts = 0
      ∧ stepPacket ⟨false, 9, 1, 2⟩ (fun _ _ _ _ => some "hi") (fun _ => true)
          (fun _ => 0) initState ⟨0, 20, 20, 20, 0, 90, [3]⟩ = .ok initState
      ∧ initState.conv_subs = []) :=
  ⟨by decide, rfl,
   c10_first_zero_start_suppressed ⟨false, 9, 1, 2⟩ (fun _ _ _ _ => some "hi")
     (fun _ => true) (fun _ => 0) ⟨0, 20, 20, 20, 0, 90, [3]⟩
     (by decide) rfl⟩
